import Mathlib

/-!
Verification of the electric snapshot POC (point-in-time reads via synthetic
MVCC snapshots).  The development shallowly embeds:

* the TypeScript commit-stream tailer (`computeSnapshotAfterCommit` and the
  replication message handler installed by `startReplicationStream`);
* the C extension `electric_poc.c`: the snapshot text codec
  (`electric_parse_snapshot_text` on the transaction-scoped install path and
  the parsing half of `create_custom_snapshot` on the query-gateway path),
  the snapshot builders, the GUC guardrail check hook, the read-only query
  classifier `is_select_query`, the jsonb argument parser, and the
  `electric_exec_as_of` pipeline.

Text is modelled as `List Char`.  C `TransactionId` is `uint32`, modelled as
`Nat` reduced mod `2 ^ 32` where the code casts; C `unsigned long` (the result
type of `strtoul`) is 64-bit, modelled as `Nat` clamped the way glibc clamps.
External library routines used by the source (`strtoul`, `isspace`,
`pg_strncasecmp`, `qsort`, `IsolationUsesXactSnapshot`) are modelled from
their documented semantics.
-/

/-- `isspace` in the C locale: space and the five control characters 9–13. -/
def isCSpace (c : Char) : Bool := c.toNat = 32 || (9 ≤ c.toNat && c.toNat ≤ 13)

/-- ASCII decimal digit test. -/
def isDigitChar (c : Char) : Bool := 48 ≤ c.toNat && c.toNat ≤ 57

/-- Numeric value of an ASCII digit. -/
def digitVal (c : Char) : ℕ := c.toNat - 48

/-- ASCII digit for a value `d < 10`. -/
def natDigitChar (d : ℕ) : Char := Char.ofNat (48 + d)

/-- Fuel-driven decimal printer (the fuel makes it structurally recursive, so
that concrete instances reduce inside the kernel). -/
def natToCharsFuel : ℕ → ℕ → List Char → List Char
  | 0, _, acc => acc
  | fuel + 1, n, acc =>
    if n < 10 then natDigitChar n :: acc
    else natToCharsFuel fuel (n / 10) (natDigitChar (n % 10) :: acc)

/-- Decimal rendering of a natural number, most significant digit first;
models JavaScript `BigInt.toString` and C `"%u"` formatting. -/
def natToChars (n : ℕ) : List Char := natToCharsFuel (n + 1) n []

/-- Left-to-right accumulation of decimal digits; models the digit loop
inside `strtoul`.  Fails on the first non-digit character. -/
def parseDigitsFrom (acc : ℕ) : List Char → Option ℕ
  | [] => some acc
  | c :: cs =>
    if isDigitChar c then parseDigitsFrom (acc * 10 + digitVal c) cs else none

/-- Parse a non-empty all-digit string to its value. -/
def parseDigits (cs : List Char) : Option ℕ :=
  match cs with
  | [] => none
  | _ => parseDigitsFrom 0 cs

/-- `2 ^ 32`, the modulus of C `TransactionId` (`uint32`). -/
def TXID_MOD : ℕ := 4294967296

/-- `2 ^ 64`, one more than `ULONG_MAX` on the 64-bit targets the extension
is built for. -/
def ULONG_MOD : ℕ := 18446744073709551616

/-- Split an optional leading sign off a token, as `strtoul` does after
skipping whitespace. -/
def signSplit (cs : List Char) : Bool × List Char :=
  match cs with
  | [] => (false, [])
  | c :: r => if c = '-' then (true, r) else if c = '+' then (false, r) else (false, cs)

/-- The `unsigned long` value `strtoul` produces from a sign and a digit
magnitude: clamped to `ULONG_MAX` on overflow, negated modulo `2 ^ 64` for a
leading minus. -/
def ulongOfMag (neg : Bool) (m : ℕ) : ℕ :=
  if ULONG_MOD ≤ m then ULONG_MOD - 1
  else if neg then (ULONG_MOD - m) % ULONG_MOD else m

/-- Model of `strtoul(tok, &endptr, 10)` followed by the source's
`*endptr == '\0'` check: optional whitespace, optional sign, then a
non-empty digit run that must reach the end of the token. -/
def parseUlongFull (cs : List Char) : Option ℕ :=
  let p := signSplit (cs.dropWhile isCSpace)
  (parseDigits p.2).map (fun m => ulongOfMag p.1 m)

/-- A parsed `TransactionId`: the `strtoul` result cast to `uint32`. -/
def parseTxid (cs : List Char) : Option ℕ :=
  (parseUlongFull cs).map (fun v => v % TXID_MOD)

/-- Model of `strtoul(tok, NULL, 10)` as used by `create_custom_snapshot`:
no end-of-token check, the longest valid prefix is converted and a token
with no digits yields `0`. -/
def strtoulLoose (cs : List Char) : ℕ :=
  let p := signSplit (cs.dropWhile isCSpace)
  ulongOfMag p.1 ((p.2.takeWhile isDigitChar).foldl (fun a c => a * 10 + digitVal c) 0)

/-- `strtok_r`-style field splitting: `splitSep` cuts at every separator,
keeping empty fields. -/
def splitSep (sep : Char) (cs : List Char) : List (List Char) :=
  cs.foldr
    (fun c acc =>
      if c = sep then [] :: acc else (c :: acc.headD []) :: acc.tail)
    [[]]

/-- The token sequence `strtok_r` yields: the non-empty fields, in order
(consecutive, leading and trailing separators produce no token). -/
def strtokFields (sep : Char) (cs : List Char) : List (List Char) :=
  (splitSep sep cs).filter (fun t => !t.isEmpty)

/-- The structured snapshot value of the spec's data model: the parsed form
shared by `ElectricParsedSnapshot` in the C extension and the snapshot
strings the tailer emits.  `TransactionId` is `uint32` in the source, so all
fields produced by the decoders are `< TXID_MOD`. -/
structure HistSnap where
  xmin : ℕ
  xmax : ℕ
  xip : List ℕ
deriving DecidableEq, Repr

/-- `Array.join(',')` from the TypeScript tailer. -/
def joinComma : List (List Char) → List Char
  | [] => []
  | [a] => a
  | a :: rest => a ++ ',' :: joinComma rest

/-- The canonical text encoding `"xmin:xmax:xip1,xip2,..."`, as produced by
the template string in `computeSnapshotAfterCommit`. -/
def encodeSnap (s : HistSnap) : List Char :=
  natToChars s.xmin ++ ':' :: (natToChars s.xmax ++ ':' :: joinComma (s.xip.map natToChars))

/-- Parse every xip token, failing on the first bad one (the per-token loop
of `electric_parse_snapshot_text`). -/
def parseXidList : List (List Char) → Option (List ℕ)
  | [] => some []
  | t :: ts =>
    match parseTxid t, parseXidList ts with
    | some x, some xs => some (x :: xs)
    | _, _ => none

/-- The duplicate scan the C code runs over the sorted xip array
(`xip[i] == xip[i-1]` for some `i`). -/
def hasAdjDup : List ℕ → Bool
  | [] => false
  | [_] => false
  | a :: b :: t => a == b || hasAdjDup (b :: t)

/-- `electric_parse_snapshot_text` from `electric_poc.c` (the decoder used
by the transaction-scoped install path): tokenize on `':'`, require an xmin
and an xmax token and at most one further token, `strtoul`-parse with full
consumption, require `xmin ≤ xmax`, parse the comma-separated xip list with
a per-entry range check, sort it, and reject adjacent duplicates.  All error
reports collapse to `none`. -/
def electric_parse_snapshot_text (cs : List Char) : Option HistSnap :=
  match strtokFields ':' cs with
  | [] => none
  | [_] => none
  | t1 :: t2 :: rest =>
    if 2 ≤ rest.length then none
    else
      match parseTxid t1 with
      | none => none
      | some xmin =>
        match parseTxid t2 with
        | none => none
        | some xmax =>
          if xmax < xmin then none
          else
            match parseXidList (strtokFields ',' (rest.headD [])) with
            | none => none
            | some xs =>
              if xs.any (fun x => x < xmin || decide (xmax ≤ x)) then none
              else
                let sorted := List.insertionSort (· ≤ ·) xs
                if hasAdjDup sorted then none else some ⟨xmin, xmax, sorted⟩

/-- The parsing half of `create_custom_snapshot` (the decoder used by the
query-gateway path): it requires an xmin and an xmax token, converts them
and the xip entries with bare `strtoul` (no end-of-token check), ignores any
extra `':'` fields, and performs no range, order, duplicate or bound
checks. -/
def create_custom_snapshot_parse (cs : List Char) : Option HistSnap :=
  match strtokFields ':' cs with
  | [] => none
  | [_] => none
  | t1 :: t2 :: rest =>
    some
      { xmin := strtoulLoose t1 % TXID_MOD
        xmax := strtoulLoose t2 % TXID_MOD
        xip := (strtokFields ',' (rest.headD [])).map (fun t => strtoulLoose t % TXID_MOD) }

/-- The spec's codec rejection conditions for the transaction-scoped decode
path, stated as a flat list over the `':'` tokens and the comma tokens of
the third field: missing or non-numeric xmin/xmax token, more than three
fields, `xmin > xmax`, a non-numeric xip entry, an xip entry outside
`[xmin, xmax)`, or a duplicated xip entry. -/
def txnDecodeRejects (cs : List Char) : Prop :=
  match strtokFields ':' cs with
  | [] => True
  | [_] => True
  | t1 :: t2 :: rest =>
    3 < (t1 :: t2 :: rest).length
    ∨ parseTxid t1 = none
    ∨ parseTxid t2 = none
    ∨ (∃ a b, parseTxid t1 = some a ∧ parseTxid t2 = some b ∧ b < a)
    ∨ (∃ t ∈ strtokFields ',' (rest.headD []), parseTxid t = none)
    ∨ (∃ xs, parseXidList (strtokFields ',' (rest.headD [])) = some xs ∧
        ∃ a b, parseTxid t1 = some a ∧ parseTxid t2 = some b ∧
          ((∃ x ∈ xs, x < a ∨ b ≤ x) ∨ ¬ xs.Nodup))

/-- `Number.MAX_SAFE_INTEGER`, the initial accumulator of the xmin
reduction in `computeSnapshotAfterCommit`. -/
def jsMaxSafeInteger : ℕ := 9007199254740991

/-- The computation inside `computeSnapshotAfterCommit`
(`replication.ts`), before string formatting.  The in-flight set is the
JavaScript `Set` of xids, modelled as its insertion-ordered,
duplicate-free element list.  `xmax` is reduced with `(max, x) => x > max
? x : max` from `0n`; `xmin` with `(min, x) => x < min ? x : min` from
`BigInt(Number.MAX_SAFE_INTEGER)`; `xip` filters to `[xmin, xmax)` and
sorts ascending. -/
def computeSnapshotParts (committedXid : ℕ) (inFlightXids : List ℕ) : HistSnap :=
  let inFlightAfter := inFlightXids.filter (fun x => x ≠ committedXid)
  let allXids := committedXid :: inFlightAfter
  let xmax := (allXids.foldl (fun m x => if m < x then x else m) 0) + 1
  let xmin :=
    if 0 < inFlightAfter.length then
      inFlightAfter.foldl (fun m x => if x < m then x else m) jsMaxSafeInteger
    else xmax
  { xmin := xmin
    xmax := xmax
    xip := List.insertionSort (· ≤ ·)
      (inFlightAfter.filter (fun x => xmin ≤ x ∧ x < xmax)) }

/-- `computeSnapshotAfterCommit`: the emitted snapshot string
`"xmin:xmax:xip1,xip2,..."`. -/
def computeSnapshotAfterCommit (committedXid : ℕ) (inFlightXids : List ℕ) : List Char :=
  encodeSnap (computeSnapshotParts committedXid inFlightXids)

/-- The snapshot §4.1 of the spec prescribes for a commit: `remaining =
InFlightSet \ {xid}`, `xmax = max({xid} ∪ remaining) + 1`, `xmin =
min(remaining)` when `remaining` is non-empty and `xmax` otherwise, `xip =
sort(remaining ∩ [xmin, xmax))`. -/
def specSnapshotAfterCommit (xid : ℕ) (inFlight : Finset ℕ) : HistSnap :=
  let remaining := inFlight.erase xid
  let xmax := (insert xid remaining).max' (Finset.insert_nonempty xid remaining) + 1
  let xmin := if h : remaining.Nonempty then remaining.min' h else xmax
  { xmin := xmin
    xmax := xmax
    xip := Finset.sort (· ≤ ·) (remaining.filter (fun x => xmin ≤ x ∧ x < xmax)) }

/-- A replication-stream message as dispatched on by the `data` handler in
`startReplicationStream`: the handler looks only at the tags `begin` and
`commit`; every other message (aborts included — pgoutput delivers no
abort message for a non-streamed transaction) falls through untouched. -/
inductive RepEvent where
  | beginEv (xid : ℕ)
  | commitEv (xid : Option ℕ)
  | abortEv (xid : ℕ)
  | otherEv
deriving DecidableEq, Repr

/-- The tailer's mutable state: the in-flight xid set (a JavaScript `Set`,
kept as its insertion-ordered duplicate-free list), the xid captured from
the last `begin`, and the emitted commit snapshots. -/
structure TailerState where
  inFlightXids : List ℕ
  currentXid : Option ℕ
  commitSnapshots : List (ℕ × List Char)
deriving DecidableEq, Repr

/-- JavaScript `Set.add`: appends only when absent. -/
def jsSetAdd (l : List ℕ) (x : ℕ) : List ℕ := if x ∈ l then l else l ++ [x]

/-- The `data` handler of `startReplicationStream`: `begin` records and
adds the xid; `commit` resolves the xid (message xid, else `currentXid`),
emits `computeSnapshotAfterCommit`, removes the xid and clears
`currentXid`; every other message leaves the state untouched. -/
def handleMessage (st : TailerState) : RepEvent → TailerState
  | RepEvent.beginEv x =>
    { st with inFlightXids := jsSetAdd st.inFlightXids x, currentXid := some x }
  | RepEvent.commitEv mx =>
    match (match mx with | some x => some x | none => st.currentXid) with
    | some x =>
      { inFlightXids := st.inFlightXids.filter (fun y => y ≠ x)
        currentXid := none
        commitSnapshots :=
          st.commitSnapshots ++ [(x, computeSnapshotAfterCommit x st.inFlightXids)] }
    | none => { st with currentXid := none }
  | RepEvent.abortEv _ => st
  | RepEvent.otherEv => st

/-- Run the handler over a message sequence. -/
def runTailer (st : TailerState) (evs : List RepEvent) : TailerState :=
  evs.foldl handleMessage st

/-- Transaction isolation levels of the storage engine. -/
inductive IsoLevel where
  | readUncommitted
  | readCommitted
  | repeatableRead
  | serializable
deriving DecidableEq, Repr

/-- `IsolationUsesXactSnapshot()` (external interface, modelled from its
documented semantics: true exactly at REPEATABLE READ and SERIALIZABLE). -/
def isolationUsesXactSnapshot : IsoLevel → Bool
  | IsoLevel.repeatableRead => true
  | IsoLevel.serializable => true
  | _ => false

/-- The per-transaction facts the guardrail checks consult:
`IsTransactionBlock()`, the isolation level, `IsSubTransaction()` (modelled
as a subtransaction depth, positive inside one), and `FirstSnapshotSet`. -/
structure TxnState where
  inTxnBlock : Bool
  isoLevel : IsoLevel
  subDepth : ℕ
  firstSnapshotFixed : Bool
deriving DecidableEq, Repr

/-- The errors `electric_snapshot_check_hook` can raise, in the taxonomy of
the spec (`MalformedSnapshot` covers every parse `ereport`). -/
inductive GuardErr where
  | NotInTransaction
  | WrongIsolationLevel
  | InSubtransaction
  | SnapshotAlreadyFixed
  | MalformedSnapshot
deriving DecidableEq, Repr

/-- `electric_snapshot_check_hook` from `electric_poc.c`: an empty new
value passes through (the clear path); otherwise the four guardrails are
checked in order and then the text is parsed.  On success it returns the
parsed snapshot that the assign hook will install. -/
def electric_snapshot_check_hook (st : TxnState) (newval : List Char) :
    Except GuardErr (Option HistSnap) :=
  if newval.isEmpty then Except.ok none
  else if !st.inTxnBlock then Except.error GuardErr.NotInTransaction
  else if !isolationUsesXactSnapshot st.isoLevel then Except.error GuardErr.WrongIsolationLevel
  else if 0 < st.subDepth then Except.error GuardErr.InSubtransaction
  else if st.firstSnapshotFixed then Except.error GuardErr.SnapshotAlreadyFixed
  else
    match electric_parse_snapshot_text newval with
    | none => Except.error GuardErr.MalformedSnapshot
    | some p => Except.ok (some p)

/-- The snapshot types of the storage engine's `SnapshotData`. -/
inductive SnapshotType where
  | mvcc
  | selfSnap
  | anySnap
  | toastSnap
  | dirty
  | historicMvcc
  | nonVacuumable
deriving DecidableEq, Repr

/-- The fields of the storage engine's `SnapshotData` record (the xip and
subxip arrays are carried as lists, so `xcnt`/`subxcnt` are their
lengths). -/
structure SnapshotData where
  snapshot_type : SnapshotType
  xmin : ℕ
  xmax : ℕ
  xip : List ℕ
  subxip : List ℕ
  suboverflowed : Bool
  takenDuringRecovery : Bool
  copied : Bool
  curcid : ℕ
  speculativeToken : ℕ
  active_count : ℕ
  regd_count : ℕ
  whenTaken : ℤ
  lsn : ℕ
deriving DecidableEq, Repr

/-- `electric_build_snapshot_from_parts`: copy `base` wholesale, force
`snapshot_type` to `SNAPSHOT_MVCC`, overwrite the MVCC fields from the
parsed snapshot, mark the copy owned (`copied`, zero refcounts) and drop
all subtransaction tracking. -/
def electric_build_snapshot_from_parts (base : SnapshotData) (parsed : HistSnap) :
    SnapshotData :=
  { base with
    snapshot_type := SnapshotType.mvcc
    xmin := parsed.xmin
    xmax := parsed.xmax
    xip := parsed.xip
    copied := true
    active_count := 0
    regd_count := 0
    subxip := []
    suboverflowed := false }

/-- The building half of `create_custom_snapshot`: identical to
`electric_build_snapshot_from_parts` except that `snapshot_type` is left
as copied from `base` (the function never assigns it). -/
def create_custom_snapshot_build (base : SnapshotData) (parsed : HistSnap) :
    SnapshotData :=
  { base with
    xmin := parsed.xmin
    xmax := parsed.xmax
    xip := parsed.xip
    copied := true
    active_count := 0
    regd_count := 0
    subxip := []
    suboverflowed := false }

/-- `pg_strncasecmp`-style ASCII lowercasing. -/
def asciiLower (c : Char) : Char :=
  if 65 ≤ c.toNat ∧ c.toNat ≤ 90 then Char.ofNat (c.toNat + 32) else c

/-- Does the query, at its current position, start with the given keyword
followed by whitespace or end of string?  Models the
`pg_strncasecmp(p, kw, n) == 0` test plus the `p[n]` lookahead of
`is_select_query`. -/
def startsWithKeyword (kw : List Char) (p : List Char) : Bool :=
  ((p.take kw.length).map asciiLower == kw) &&
    (match p.drop kw.length with
     | [] => true
     | c :: _ => isCSpace c)

/-- `is_select_query` from `electric_poc.c`: skip leading `isspace`
characters, then accept exactly a `select` or `with` token followed by
whitespace or end of string. -/
def is_select_query (sql : List Char) : Bool :=
  let p := sql.dropWhile isCSpace
  startsWithKeyword ['s','e','l','e','c','t'] p || startsWithKeyword ['w','i','t','h'] p

/-- A jsonb value, as far as `parse_jsonb_args` inspects one.  Numbers are
carried as their `numeric_out` rendering, which is all the code ever uses
of them. -/
inductive JVal where
  | jnull
  | jstr (s : List Char)
  | jnum (numericOut : List Char)
  | jbool (b : Bool)
  | jarr (elems : List JVal)
  | jobj (pairs : List (List Char × JVal))

/-- Errors surfaced by `electric_exec_as_of` and its helpers. -/
inductive GatewayErr where
  | NotReadOnly
  | MalformedSnapshot
  | InvalidParameterValue
  | ExecutionError
  | ResultShapeError
deriving DecidableEq, Repr

/-- One element conversion of `parse_jsonb_args`: strings, numbers and
booleans become C strings, null becomes the NULL pointer (`none`), nested
containers raise the unsupported-type error. -/
def jsonbArgElem : JVal → Except GatewayErr (Option (List Char))
  | JVal.jnull => Except.ok none
  | JVal.jstr s => Except.ok (some s)
  | JVal.jnum r => Except.ok (some r)
  | JVal.jbool b =>
    Except.ok (some (if b then ['t','r','u','e'] else ['f','a','l','s','e']))
  | JVal.jarr _ => Except.error GatewayErr.InvalidParameterValue
  | JVal.jobj _ => Except.error GatewayErr.InvalidParameterValue

def jsonbArgList : List JVal → Except GatewayErr (List (Option (List Char)))
  | [] => Except.ok []
  | v :: vs =>
    match jsonbArgElem v, jsonbArgList vs with
    | Except.ok a, Except.ok rest => Except.ok (a :: rest)
    | Except.error e, _ => Except.error e
    | _, Except.error e => Except.error e

/-- `parse_jsonb_args`: a NULL or scalar-rooted jsonb yields zero
arguments, a non-array root is rejected, and an array root is converted
element by element. -/
def parse_jsonb_args : Option JVal → Except GatewayErr (List (Option (List Char)))
  | none => Except.ok []
  | some v =>
    match v with
    | JVal.jarr elems => jsonbArgList elems
    | JVal.jobj _ => Except.error GatewayErr.InvalidParameterValue
    | _ => Except.ok []

/-- A value bound to a placeholder: SQL NULL (`nulls[i] = 'n'`) or a text
datum. -/
inductive BoundValue where
  | sqlNull
  | textVal (s : List Char)
deriving DecidableEq, Repr

/-- The binding loop of `electric_exec_as_of`: a NULL C string binds as
SQL NULL, anything else as a text datum. -/
def bindArg : Option (List Char) → BoundValue
  | none => BoundValue.sqlNull
  | some s => BoundValue.textVal s

/-- What the storage engine reports back for the wrapped aggregation
query: an execution error (an `ereport` longjmp out of `SPI_execute`), or
a return-code/row-list pair — `retOk` is `ret == SPI_OK_SELECT`, and each
row carries the aggregated jsonb text or NULL. -/
inductive EngineReply where
  | execFail
  | done (retOk : Bool) (rows : List (Option (List Char)))

/-- Outcome of one `electric_exec_as_of` call: the returned value or
error, the active-snapshot stack after the call, and whether the storage
engine was ever invoked. -/
structure GatewayOutcome where
  result : Except GatewayErr (List Char)
  snapStackAfter : List SnapshotData
  engineCalled : Bool

/-- `"[]"`, the fallback result for a NULL aggregate. -/
def emptyJsonArr : List Char := ['[', ']']

/-- The `SELECT COALESCE(json_agg(row_to_json(q)), '[]'::json)::jsonb
FROM (%s) q` wrapper. -/
def wrapSql (sql : List Char) : List Char :=
  ("SELECT COALESCE(json_agg(row_to_json(q)), '[]'::json)::jsonb FROM (".toList)
    ++ sql ++ (") q".toList)

/-- `electric_exec_as_of`, step for step: read-only classification first,
then argument parsing, then snapshot decoding and overlay construction,
`PushActiveSnapshot`, the guarded execution, and a `PG_FINALLY` block that
pops the overlay on success and error alike. -/
def electric_exec_as_of_model
    (base : SnapshotData) (stack : List SnapshotData)
    (engine : List Char → List BoundValue → EngineReply)
    (snapshotText sqlText : List Char) (args : Option JVal) : GatewayOutcome :=
  if !is_select_query sqlText then
    { result := Except.error GatewayErr.NotReadOnly
      snapStackAfter := stack, engineCalled := false }
  else
    match parse_jsonb_args args with
    | Except.error e =>
      { result := Except.error e, snapStackAfter := stack, engineCalled := false }
    | Except.ok argStrs =>
      match create_custom_snapshot_parse snapshotText with
      | none =>
        { result := Except.error GatewayErr.MalformedSnapshot
          snapStackAfter := stack, engineCalled := false }
      | some parsed =>
        let snap := create_custom_snapshot_build base parsed
        let stackDuring := snap :: stack
        match engine (wrapSql sqlText) (argStrs.map bindArg) with
        | EngineReply.execFail =>
          { result := Except.error GatewayErr.ExecutionError
            snapStackAfter := stackDuring.tail, engineCalled := true }
        | EngineReply.done retOk rows =>
          if !retOk then
            { result := Except.error GatewayErr.ExecutionError
              snapStackAfter := stackDuring.tail, engineCalled := true }
          else if rows.length ≠ 1 then
            { result := Except.error GatewayErr.ResultShapeError
              snapStackAfter := stackDuring.tail, engineCalled := true }
          else
            match rows.headD none with
            | none =>
              { result := Except.ok emptyJsonArr
                snapStackAfter := stackDuring.tail, engineCalled := true }
            | some payload =>
              { result := Except.ok payload
                snapStackAfter := stackDuring.tail, engineCalled := true }

/-- The session facts the transaction-scoped install mutates: the
transaction state and the installed pending snapshot. -/
structure SessionState where
  txn : TxnState
  pending : Option SnapshotData

/-- `SET LOCAL electric.snapshot = newval`: the check hook validates (and
parses), then the assign hook clears on empty text or builds and installs
the synthetic snapshot, fixing the transaction's first snapshot.  On a
check-hook error nothing is assigned and the session state is returned
unchanged. -/
def requestInstall (st : SessionState) (base : SnapshotData) (newval : List Char) :
    Option GuardErr × SessionState :=
  match electric_snapshot_check_hook st.txn newval with
  | Except.error e => (some e, st)
  | Except.ok none => (none, { st with pending := none })
  | Except.ok (some parsed) =>
    (none,
      { txn := { st.txn with firstSnapshotFixed := true }
        pending := some (electric_build_snapshot_from_parts base parsed) })

/-- The acceptance condition of spec §4.5 step 2, stated independently:
after skipping leading whitespace, the lowercased text decomposes as a
read-query token (`select` or `with`) followed by nothing or by a
whitespace character. -/
def specReadOnlyAccept (sql : List Char) : Prop :=
  ∃ kw rest, (kw = ['s','e','l','e','c','t'] ∨ kw = ['w','i','t','h']) ∧
    (sql.dropWhile isCSpace).map asciiLower = kw ++ rest ∧
    (rest = [] ∨ ∃ c rest2, rest = c :: rest2 ∧ isCSpace c = true)

instance {e a : Type} [DecidableEq e] [DecidableEq a] : DecidableEq (Except e a) :=
  fun x y =>
  match x, y with
  | Except.ok u, Except.ok v =>
    if h : u = v then Decidable.isTrue (by rw [h])
    else Decidable.isFalse (by intro hc; injection hc; exact h (by assumption))
  | Except.ok _, Except.error _ => Decidable.isFalse (fun hc => Except.noConfusion hc)
  | Except.error _, Except.ok _ => Decidable.isFalse (fun hc => Except.noConfusion hc)
  | Except.error u, Except.error v =>
    if h : u = v then Decidable.isTrue (by rw [h])
    else Decidable.isFalse (by intro hc; injection hc; exact h (by assumption))

/-- A concrete MVCC base snapshot used to instantiate theorems. -/
def sampleBase : SnapshotData :=
  { snapshot_type := SnapshotType.mvcc
    xmin := 90, xmax := 120, xip := [95], subxip := [97], suboverflowed := false
    takenDuringRecovery := false, copied := false, curcid := 3
    speculativeToken := 7, active_count := 2, regd_count := 4
    whenTaken := 11, lsn := 13 }

/-- A base snapshot whose `snapshot_type` is not `SNAPSHOT_MVCC`. -/
def sampleBaseAny : SnapshotData :=
  { sampleBase with snapshot_type := SnapshotType.anySnap }

theorem natToCharsFuel_congr :
    ∀ n f₁ f₂ acc, n < f₁ → n < f₂ →
      natToCharsFuel f₁ n acc = natToCharsFuel f₂ n acc := by
  intro n
  induction n using Nat.strong_induction_on with
  | _ n ih =>
    intro f₁ f₂ acc h₁ h₂
    match f₁, f₂ with
    | g₁ + 1, g₂ + 1 =>
      simp only [natToCharsFuel]
      by_cases hn : n < 10
      · simp [hn]
      · simp only [hn, if_false]
        have hlt : n / 10 < n := Nat.div_lt_self (by omega) (by omega)
        exact ih (n / 10) hlt _ _ _ (by omega) (by omega)

theorem natToCharsFuel_acc :
    ∀ n f acc, n < f →
      natToCharsFuel f n acc = natToCharsFuel f n [] ++ acc := by
  intro n
  induction n using Nat.strong_induction_on with
  | _ n ih =>
    intro f acc h
    match f with
    | g + 1 =>
      simp only [natToCharsFuel]
      by_cases hn : n < 10
      · simp [hn]
      · simp only [hn, if_false]
        have hlt : n / 10 < n := Nat.div_lt_self (by omega) (by omega)
        have hg : n / 10 < g := by omega
        rw [ih (n / 10) hlt g _ hg, ih (n / 10) hlt g [natDigitChar (n % 10)] hg,
          List.append_assoc]
        simp

theorem char_toNat_ofNat {n : ℕ} (h : n < 55296) : (Char.ofNat n).toNat = n := by
  have hv : Nat.isValidChar n := Or.inl h
  unfold Char.ofNat
  rw [dif_pos hv]
  rfl

/-- One-step unfolding of `natToChars`, independent of the fuel. -/
theorem natToChars_eq (n : ℕ) :
    natToChars n =
      if n < 10 then [natDigitChar n]
      else natToChars (n / 10) ++ [natDigitChar (n % 10)] := by
  by_cases hn : n < 10
  · simp [natToChars, natToCharsFuel, hn]
  · have hlt : n / 10 < n := Nat.div_lt_self (by omega) (by omega)
    rw [if_neg hn]
    show natToCharsFuel (n + 1) n [] = _
    have h1 : natToCharsFuel (n + 1) n [] =
        natToCharsFuel n (n / 10) [natDigitChar (n % 10)] := by
      simp [natToCharsFuel, hn]
    rw [h1, natToCharsFuel_acc (n / 10) n _ hlt,
      natToCharsFuel_congr (n / 10) n (n / 10 + 1) [] hlt (by omega)]
    rfl

theorem natToChars_ne_nil (n : ℕ) : natToChars n ≠ [] := by
  rw [natToChars_eq]
  by_cases hn : n < 10 <;> simp [hn]

theorem natToChars_digits (n : ℕ) :
    ∀ c ∈ natToChars n, isDigitChar c = true := by
  induction n using Nat.strong_induction_on with
  | _ n ih =>
    rw [natToChars_eq]
    by_cases hn : n < 10
    · simp only [hn, if_true, List.mem_singleton]
      rintro c rfl
      have h48 : (Char.ofNat (48 + n)).toNat = 48 + n := char_toNat_ofNat (by omega)
      simp only [isDigitChar, natDigitChar, h48, Bool.and_eq_true, decide_eq_true_eq]
      omega
    · simp only [hn, if_false, List.mem_append, List.mem_singleton]
      rintro c (hc | rfl)
      · exact ih (n / 10) (Nat.div_lt_self (by omega) (by omega)) c hc
      · have : n % 10 < 10 := Nat.mod_lt _ (by omega)
        have h48 : (Char.ofNat (48 + n % 10)).toNat = 48 + n % 10 :=
          char_toNat_ofNat (by omega)
        simp only [isDigitChar, natDigitChar, h48, Bool.and_eq_true, decide_eq_true_eq]
        omega

theorem parseDigitsFrom_append (acc : ℕ) (xs ys : List Char) :
    parseDigitsFrom acc (xs ++ ys) =
      (parseDigitsFrom acc xs).bind (fun m => parseDigitsFrom m ys) := by
  induction xs generalizing acc with
  | nil => simp [parseDigitsFrom]
  | cons c cs ih =>
    simp only [List.cons_append, parseDigitsFrom]
    by_cases hc : isDigitChar c <;> simp [hc, ih]

theorem digitVal_natDigitChar (d : ℕ) (h : d < 10) :
    digitVal (natDigitChar d) = d := by
  simp only [digitVal, natDigitChar]
  rw [char_toNat_ofNat (by omega)]
  omega

theorem parseDigitsFrom_natToChars (n : ℕ) :
    ∀ acc, parseDigitsFrom acc (natToChars n) =
      some (acc * 10 ^ (natToChars n).length + n) := by
  induction n using Nat.strong_induction_on with
  | _ n ih =>
    intro acc
    rw [natToChars_eq]
    by_cases hn : n < 10
    · have hd : isDigitChar (natDigitChar n) = true := by
        have := natToChars_digits n
        rw [natToChars_eq] at this
        exact this _ (by simp [hn])
      simp [hn, parseDigitsFrom, hd, digitVal_natDigitChar n hn]
    · have hlt : n / 10 < n := Nat.div_lt_self (by omega) (by omega)
      have hd : isDigitChar (natDigitChar (n % 10)) = true := by
        have := natToChars_digits n
        rw [natToChars_eq] at this
        exact this _ (by simp [hn])
      simp only [hn, if_false, parseDigitsFrom_append, ih (n / 10) hlt acc]
      simp only [Option.some_bind, parseDigitsFrom, hd, if_true,
        digitVal_natDigitChar (n % 10) (Nat.mod_lt _ (by omega)),
        List.length_append, List.length_cons, List.length_nil, pow_succ]
      congr 1
      generalize (10 : ℕ) ^ (natToChars (n / 10)).length = k
      have hk : (acc * k + n / 10) * 10 + n % 10 =
          acc * (k * 10) + (n / 10 * 10 + n % 10) := by ring
      rw [hk]
      congr 1
      omega

theorem parseDigits_natToChars (n : ℕ) : parseDigits (natToChars n) = some n := by
  have hne := natToChars_ne_nil n
  simp only [parseDigits]
  match h : natToChars n with
  | [] => exact absurd h hne
  | c :: cs =>
    have := parseDigitsFrom_natToChars n 0
    rw [h] at this
    simpa using this

theorem splitSep_nil (sep : Char) : splitSep sep [] = [[]] := rfl

theorem splitSep_cons (sep c : Char) (cs : List Char) :
    splitSep sep (c :: cs) =
      if c = sep then [] :: splitSep sep cs
      else (c :: (splitSep sep cs).headD []) :: (splitSep sep cs).tail := rfl

theorem splitSep_ne_nil (sep : Char) (cs : List Char) : splitSep sep cs ≠ [] := by
  induction cs with
  | nil => simp [splitSep_nil]
  | cons c cs ih =>
    rw [splitSep_cons]
    by_cases hc : c = sep <;> simp [hc]

/-- Splitting a separator-free string yields the single field. -/
theorem splitSep_no_sep (sep : Char) (cs : List Char)
    (h : ∀ c ∈ cs, c ≠ sep) : splitSep sep cs = [cs] := by
  induction cs with
  | nil => rfl
  | cons c cs ih =>
    rw [splitSep_cons, if_neg (h c (by simp))]
    rw [ih (fun x hx => h x (by simp [hx]))]
    rfl

/-- Splitting peels off a separator-free prefix as the first field. -/
theorem splitSep_append (sep : Char) (a b : List Char)
    (h : ∀ c ∈ a, c ≠ sep) :
    splitSep sep (a ++ sep :: b) = a :: splitSep sep b := by
  induction a with
  | nil => simp [splitSep_cons]
  | cons c a ih =>
    rw [List.cons_append, splitSep_cons, if_neg (h c (by simp))]
    rw [ih (fun x hx => h x (by simp [hx]))]
    rfl

theorem digit_not_space {c : Char} (h : isDigitChar c = true) : isCSpace c = false := by
  simp only [isDigitChar, Bool.and_eq_true, decide_eq_true_eq] at h
  simp only [isCSpace, Bool.or_eq_false_iff, Bool.and_eq_false_iff]
  constructor
  · simp only [decide_eq_false_iff_not]; omega
  · right; simp only [decide_eq_false_iff_not]; omega

theorem digit_ne_colon {c : Char} (h : isDigitChar c = true) : c ≠ ':' := by
  intro hc
  subst hc
  revert h
  decide

theorem digit_ne_comma {c : Char} (h : isDigitChar c = true) : c ≠ ',' := by
  intro hc
  subst hc
  revert h
  decide

theorem digit_ne_minus {c : Char} (h : isDigitChar c = true) : c ≠ '-' := by
  intro hc
  subst hc
  revert h
  decide

theorem digit_ne_plus {c : Char} (h : isDigitChar c = true) : c ≠ '+' := by
  intro hc
  subst hc
  revert h
  decide

/-- `strtoul` with the full-consumption check recovers a printed value
below `ULONG_MOD` unchanged. -/
theorem parseUlongFull_natToChars (n : ℕ) (h : n < ULONG_MOD) :
    parseUlongFull (natToChars n) = some n := by
  have hdig := natToChars_digits n
  have hdrop : (natToChars n).dropWhile isCSpace = natToChars n := by
    match hcs : natToChars n with
    | [] => rfl
    | c :: cs =>
      rw [List.dropWhile_cons,
        digit_not_space (hdig c (by rw [hcs]; simp))]
      simp
  have hsign : signSplit (natToChars n) = (false, natToChars n) := by
    match hcs : natToChars n with
    | [] => exact absurd hcs (natToChars_ne_nil n)
    | c :: cs =>
      have hc : isDigitChar c = true := hdig c (by rw [hcs]; simp)
      simp [signSplit, digit_ne_minus hc, digit_ne_plus hc]
  simp only [parseUlongFull, hdrop, hsign, parseDigits_natToChars n]
  simp [ulongOfMag, Nat.not_le.mpr h]

/-- `parseTxid` recovers a printed `uint32` value unchanged. -/
theorem parseTxid_natToChars (n : ℕ) (h : n < TXID_MOD) :
    parseTxid (natToChars n) = some n := by
  have hu : n < ULONG_MOD := by
    simp only [TXID_MOD] at h
    simp only [ULONG_MOD]
    omega
  simp [parseTxid, parseUlongFull_natToChars n hu, Nat.mod_eq_of_lt h]

theorem joinComma_chars (l : List ℕ) :
    ∀ c ∈ joinComma (l.map natToChars), isDigitChar c = true ∨ c = ',' := by
  induction l with
  | nil => simp [joinComma]
  | cons a rest ih =>
    match rest with
    | [] =>
      simp only [List.map_cons, List.map_nil, joinComma]
      intro c hc
      exact Or.inl (natToChars_digits a c hc)
    | b :: rest2 =>
      simp only [List.map_cons, joinComma, List.mem_append, List.mem_cons]
      rintro c (hc | rfl | hc)
      · exact Or.inl (natToChars_digits a c hc)
      · exact Or.inr rfl
      · exact ih c (by simp only [List.map_cons]; exact hc)

/-- Splitting the comma-joined rendering of a list of values recovers the
individual renderings. -/
theorem strtokFields_joinComma (l : List ℕ) :
    strtokFields ',' (joinComma (l.map natToChars)) = l.map natToChars := by
  induction l with
  | nil => rfl
  | cons a rest ih =>
    match rest with
    | [] =>
      simp only [List.map_cons, List.map_nil, joinComma, strtokFields]
      rw [splitSep_no_sep ',' _
        (fun c hc => digit_ne_comma (natToChars_digits a c hc))]
      simp [natToChars_ne_nil a, List.isEmpty_iff]
    | b :: rest2 =>
      simp only [List.map_cons, joinComma] at ih ⊢
      simp only [strtokFields] at ih ⊢
      rw [splitSep_append ',' _ _
        (fun c hc => digit_ne_comma (natToChars_digits a c hc))]
      rw [List.filter_cons_of_pos (by simp [natToChars_ne_nil a, List.isEmpty_iff])]
      rw [ih]

/-- Tokenizing the canonical encoding on `':'` yields the xmin and xmax
renderings followed by the xip segment when the xip list is non-empty. -/
theorem strtokFields_encodeSnap (s : HistSnap) :
    strtokFields ':' (encodeSnap s) =
      if s.xip.isEmpty then [natToChars s.xmin, natToChars s.xmax]
      else [natToChars s.xmin, natToChars s.xmax, joinComma (s.xip.map natToChars)] := by
  have hx : ∀ c ∈ joinComma (s.xip.map natToChars), c ≠ ':' := by
    intro c hc
    rcases joinComma_chars s.xip c hc with h | rfl
    · exact digit_ne_colon h
    · decide
  simp only [encodeSnap, strtokFields]
  rw [splitSep_append ':' _ _
      (fun c hc => digit_ne_colon (natToChars_digits s.xmin c hc)),
    splitSep_append ':' _ _
      (fun c hc => digit_ne_colon (natToChars_digits s.xmax c hc)),
    splitSep_no_sep ':' _ hx]
  have h1 : (natToChars s.xmin).isEmpty = false := by
    simp [List.isEmpty_iff, natToChars_ne_nil]
  have h2 : (natToChars s.xmax).isEmpty = false := by
    simp [List.isEmpty_iff, natToChars_ne_nil]
  match hxip : s.xip with
  | [] =>
    simp [joinComma, List.filter, h1, h2]
  | x :: rest =>
    have hne : (joinComma ((x :: rest).map natToChars)).isEmpty = false := by
      match rest with
      | [] =>
        simpa [joinComma, List.isEmpty_iff] using natToChars_ne_nil x
      | y :: rest2 => simp [joinComma, List.isEmpty_iff, natToChars_ne_nil x]
    simp only [List.map_cons] at hne
    simp [List.filter, h1, h2, hne]

theorem parseXidList_map_natToChars (l : List ℕ) (h : ∀ x ∈ l, x < TXID_MOD) :
    parseXidList (l.map natToChars) = some l := by
  induction l with
  | nil => rfl
  | cons a rest ih =>
    simp only [List.map_cons, parseXidList,
      parseTxid_natToChars a (h a (by simp)),
      ih (fun x hx => h x (by simp [hx]))]

theorem hasAdjDup_eq_false_of_sorted_nodup {l : List ℕ}
    (hs : List.Sorted (· ≤ ·) l) (hn : l.Nodup) : hasAdjDup l = false := by
  induction l with
  | nil => rfl
  | cons a t ih =>
    match t with
    | [] => rfl
    | b :: t2 =>
      simp only [hasAdjDup, Bool.or_eq_false_iff]
      refine ⟨?_, ih hs.of_cons hn.of_cons⟩
      have hab : a ≠ b := by
        intro hab
        subst hab
        exact (List.nodup_cons.mp hn).1 (by simp)
      simpa using hab

/-- For a `(· ≤ ·)`-sorted list, the adjacent-duplicate scan of the C code
detects exactly the failure of `Nodup`. -/
theorem hasAdjDup_iff_not_nodup {l : List ℕ} (hs : List.Sorted (· ≤ ·) l) :
    hasAdjDup l = true ↔ ¬ l.Nodup := by
  constructor
  · intro h hn
    rw [hasAdjDup_eq_false_of_sorted_nodup hs hn] at h
    exact Bool.false_ne_true h
  · intro hn
    by_contra h
    have hfalse : hasAdjDup l = false := by
      revert h
      match hasAdjDup l with
      | true => intro h; exact absurd rfl h
      | false => intro _; rfl
    -- a sorted list without adjacent duplicates is Nodup
    apply hn
    clear hn
    induction l with
    | nil => exact List.nodup_nil
    | cons a t ih =>
      match t with
      | [] => simp
      | b :: t2 =>
        simp only [hasAdjDup, Bool.or_eq_false_iff] at hfalse
        have hab : a ≠ b := by simpa using hfalse.1
        have htail : (b :: t2).Nodup := ih hs.of_cons (by
          intro hc
          rw [hfalse.2] at hc
          exact Bool.false_ne_true hc) hfalse.2
        rw [List.nodup_cons]
        refine ⟨?_, htail⟩
        intro hmem
        have hle : ∀ x ∈ b :: t2, a ≤ x := by
          intro x hx
          exact List.rel_of_sorted_cons hs x hx
        have hblt : a < b ∨ a = b := by
          rcases lt_or_eq_of_le (hle b (by simp)) with h1 | h1
          · exact Or.inl h1
          · exact Or.inr h1
        rcases hblt with h1 | h1
        · -- a ∈ b :: t2 but every element there is ≥ b > a
          have hsorted2 := hs.of_cons
          rcases List.mem_cons.mp hmem with rfl | hmem2
          · exact absurd rfl hab
          · have : b ≤ a := List.rel_of_sorted_cons hs.of_cons a hmem2
            omega
        · exact hab h1

/-- C3 supporting fact: decoding the canonical encoding of a valid
snapshot value recovers it exactly. -/
theorem decode_encode (s : HistSnap)
    (hbound : s.xmax < TXID_MOD)
    (hminmax : s.xmin ≤ s.xmax)
    (hrange : ∀ x ∈ s.xip, s.xmin ≤ x ∧ x < s.xmax)
    (hsorted : List.Sorted (· < ·) s.xip) :
    electric_parse_snapshot_text (encodeSnap s) = some s := by
  have hxminb : s.xmin < TXID_MOD := lt_of_le_of_lt hminmax hbound
  have hxipb : ∀ x ∈ s.xip, x < TXID_MOD :=
    fun x hx => lt_trans (hrange x hx).2 hbound
  have hsle : List.Sorted (· ≤ ·) s.xip := hsorted.le_of_lt
  have hnodup : s.xip.Nodup := hsorted.nodup
  have hsortEq : List.insertionSort (· ≤ ·) s.xip = s.xip :=
    List.Sorted.insertionSort_eq hsle
  have hdup : hasAdjDup (List.insertionSort (· ≤ ·) s.xip) = false := by
    rw [hsortEq]
    exact hasAdjDup_eq_false_of_sorted_nodup hsle hnodup
  rw [electric_parse_snapshot_text, strtokFields_encodeSnap s]
  match hxip : s.xip with
  | [] =>
    simp only [List.isEmpty_nil, if_true]
    simp only [List.length_nil, parseTxid_natToChars s.xmin hxminb,
      parseTxid_natToChars s.xmax hbound]
    rw [if_neg (show ¬ (2 : ℕ) ≤ 0 by omega), if_neg (Nat.not_lt.mpr hminmax),
      show strtokFields ',' (([] : List (List Char)).headD []) = [] from rfl]
    simp only [parseXidList, List.any_nil, Bool.false_eq_true, if_false]
    rw [show List.insertionSort (fun x1 x2 => x1 ≤ x2) ([] : List ℕ) = [] from rfl]
    rw [show hasAdjDup [] = false from rfl]
    simp only [Bool.false_eq_true, if_false]
    cases s with
    | mk a b c => simp_all
  | x :: rest =>
    have hne : (x :: rest : List ℕ) ≠ [] := by simp
    simp only [List.isEmpty_cons, Bool.false_eq_true, if_false]
    rw [hxip] at hrange hsortEq hdup hxipb
    simp only [List.length_cons, List.length_nil, List.headD_cons]
    rw [if_neg (by omega)]
    simp only [parseTxid_natToChars s.xmin hxminb,
      parseTxid_natToChars s.xmax hbound]
    rw [if_neg (Nat.not_lt.mpr hminmax)]
    rw [strtokFields_joinComma (x :: rest), parseXidList_map_natToChars _ hxipb]
    have hany : (x :: rest).any (fun y => y < s.xmin || decide (s.xmax ≤ y)) = false := by
      rw [List.any_eq_false]
      intro y hy
      have := hrange y hy
      simp only [Bool.or_eq_true, decide_eq_true_eq]
      omega
    simp only [hany, Bool.false_eq_true, if_false, hdup, hsortEq]
    cases s with
    | mk a b c => simp_all

theorem parseXidList_eq_none_iff (ts : List (List Char)) :
    parseXidList ts = none ↔ ∃ t ∈ ts, parseTxid t = none := by
  induction ts with
  | nil => simp [parseXidList]
  | cons t ts ih =>
    simp only [parseXidList]
    match ht : parseTxid t with
    | none =>
      simp only [List.mem_cons]
      constructor
      · intro _
        exact ⟨t, Or.inl rfl, ht⟩
      · intro _
        trivial
    | some x =>
      match hts : parseXidList ts with
      | none =>
        rw [hts] at ih
        simp only [List.mem_cons]
        constructor
        · intro _
          obtain ⟨u, hu, hpu⟩ := ih.mp rfl
          exact ⟨u, Or.inr hu, hpu⟩
        · intro _
          trivial
      | some xs =>
        rw [hts] at ih
        simp only [List.mem_cons]
        constructor
        · intro h
          simp at h
        · rintro ⟨u, hu | hu, hpu⟩
          · subst hu
            rw [ht] at hpu
            simp at hpu
          · exact absurd (ih.mpr ⟨u, hu, hpu⟩) (by simp)

theorem parseXidList_some_no_bad {ts : List (List Char)} {xs : List ℕ}
    (h : parseXidList ts = some xs) : ∀ t ∈ ts, parseTxid t ≠ none := by
  intro t ht hnone
  have hn : parseXidList ts = none := (parseXidList_eq_none_iff ts).mpr ⟨t, ht, hnone⟩
  rw [hn] at h
  exact absurd h (by simp)

/-- The transaction-scoped decoder fails precisely on the flat rejection
conditions. -/
theorem electric_parse_none_iff (cs : List Char) :
    electric_parse_snapshot_text cs = none ↔ txnDecodeRejects cs := by
  rw [electric_parse_snapshot_text, txnDecodeRejects]
  match strtokFields ':' cs with
  | [] => simp
  | [t] => simp
  | t1 :: t2 :: rest =>
    simp only [List.length_cons]
    by_cases hlen : 2 ≤ rest.length
    · rw [if_pos hlen]
      simp only [eq_self_iff_true, true_iff]
      left
      omega
    · rw [if_neg hlen]
      match ht1 : parseTxid t1 with
      | none => simp [ht1]
      | some a =>
        match ht2 : parseTxid t2 with
        | none => simp [ht2]
        | some b =>
          by_cases hba : b < a
          · simp only [if_pos hba, eq_self_iff_true, true_iff]
            right; right; right; left
            exact ⟨a, b, rfl, rfl, hba⟩
          · simp only [if_neg hba]
            match hxl : parseXidList (strtokFields ',' (rest.headD [])) with
            | none =>
              simp only [eq_self_iff_true, true_iff]
              right; right; right; right; left
              exact (parseXidList_eq_none_iff _).mp hxl
            | some xs =>
              have hperm := List.perm_insertionSort (· ≤ ·) xs
              have hsorted := List.sorted_insertionSort (· ≤ ·) xs
              by_cases hany : xs.any (fun x => x < a || decide (b ≤ x)) = true
              · simp only [hany, if_true, eq_self_iff_true, true_iff]
                right; right; right; right; right
                refine ⟨xs, rfl, a, b, rfl, rfl, Or.inl ?_⟩
                rw [List.any_eq_true] at hany
                obtain ⟨x, hx, hpx⟩ := hany
                simp only [Bool.or_eq_true, decide_eq_true_eq] at hpx
                exact ⟨x, hx, hpx⟩
              · have hany2 : xs.any (fun x => x < a || decide (b ≤ x)) = false := by
                  revert hany
                  match xs.any (fun x => x < a || decide (b ≤ x)) with
                  | true => intro h; exact absurd rfl h
                  | false => intro _; rfl
                simp only [hany2, Bool.false_eq_true, if_false]
                by_cases hdup : hasAdjDup (List.insertionSort (· ≤ ·) xs) = true
                · simp only [hdup, if_true, eq_self_iff_true, true_iff]
                  right; right; right; right; right
                  refine ⟨xs, rfl, a, b, rfl, rfl, Or.inr ?_⟩
                  have hnn := (hasAdjDup_iff_not_nodup hsorted).mp hdup
                  intro hnd
                  exact hnn (hperm.nodup_iff.mpr hnd)
                · have hdup2 : hasAdjDup (List.insertionSort (· ≤ ·) xs) = false := by
                    revert hdup
                    match hasAdjDup (List.insertionSort (· ≤ ·) xs) with
                    | true => intro h; exact absurd rfl h
                    | false => intro _; rfl
                  simp only [hdup2, Bool.false_eq_true, if_false]
                  constructor
                  · intro h
                    simp at h
                  · intro h
                    exfalso
                    rcases h with h | h | h | h | h | h
                    · omega
                    · simp at h
                    · simp at h
                    · obtain ⟨u, v, hu, hv, huv⟩ := h
                      simp only [Option.some.injEq] at hu hv
                      omega
                    · obtain ⟨t, htm, htp⟩ := h
                      exact parseXidList_some_no_bad hxl t htm htp
                    · obtain ⟨ys, hys, u, v, hu, hv, hbad⟩ := h
                      simp only [Option.some.injEq] at hys hu hv
                      subst hys; subst hu; subst hv
                      rcases hbad with ⟨x, hx, hxb⟩ | hnd
                      · rw [List.any_eq_false] at hany2
                        have := hany2 x hx
                        simp only [Bool.or_eq_true, decide_eq_true_eq] at this
                        omega
                      · have hnodup : (List.insertionSort (· ≤ ·) xs).Nodup := by
                          by_contra hc
                          rw [(hasAdjDup_iff_not_nodup hsorted).mpr hc] at hdup2
                          simp at hdup2
                        exact hnd (hperm.nodup_iff.mp hnodup)

/-- The query-gateway decoder fails only when the xmin or xmax token is
missing; it performs none of the other checks. -/
theorem create_custom_parse_none_iff (cs : List Char) :
    create_custom_snapshot_parse cs = none ↔ (strtokFields ':' cs).length < 2 := by
  rw [create_custom_snapshot_parse]
  match strtokFields ':' cs with
  | [] => simp
  | [t] => simp
  | t1 :: t2 :: rest => simp

theorem foldl_jsmax_ge_init (l : List ℕ) (a : ℕ) :
    a ≤ l.foldl (fun m x => if m < x then x else m) a := by
  induction l generalizing a with
  | nil => simp
  | cons y ys ih =>
    simp only [List.foldl_cons]
    by_cases h : a < y
    · simp only [if_pos h]
      exact le_trans (le_of_lt h) (ih y)
    · simp only [if_neg h]
      exact ih a

theorem foldl_jsmax_ge_mem (l : List ℕ) (a : ℕ) :
    ∀ x ∈ l, x ≤ l.foldl (fun m x => if m < x then x else m) a := by
  induction l generalizing a with
  | nil => simp
  | cons y ys ih =>
    intro x hx
    simp only [List.foldl_cons]
    rcases List.mem_cons.mp hx with rfl | hx2
    · by_cases h : a < x
      · simp only [if_pos h]
        exact foldl_jsmax_ge_init ys x
      · simp only [if_neg h]
        exact le_trans (Nat.not_lt.mp h) (foldl_jsmax_ge_init ys a)
    · by_cases h : a < y
      · simp only [if_pos h]
        exact ih y x hx2
      · simp only [if_neg h]
        exact ih a x hx2

theorem foldl_jsmax_le (l : List ℕ) (a c : ℕ) (ha : a ≤ c)
    (hl : ∀ x ∈ l, x ≤ c) :
    l.foldl (fun m x => if m < x then x else m) a ≤ c := by
  induction l generalizing a with
  | nil => simpa
  | cons y ys ih =>
    simp only [List.foldl_cons]
    by_cases h : a < y
    · simp only [if_pos h]
      exact ih y (hl y (by simp)) (fun x hx => hl x (by simp [hx]))
    · simp only [if_neg h]
      exact ih a ha (fun x hx => hl x (by simp [hx]))

theorem foldl_jsmin_le_init (l : List ℕ) (a : ℕ) :
    l.foldl (fun m x => if x < m then x else m) a ≤ a := by
  induction l generalizing a with
  | nil => simp
  | cons y ys ih =>
    simp only [List.foldl_cons]
    by_cases h : y < a
    · simp only [if_pos h]
      exact le_trans (ih y) (le_of_lt h)
    · simp only [if_neg h]
      exact ih a

theorem foldl_jsmin_le_mem (l : List ℕ) (a : ℕ) :
    ∀ x ∈ l, l.foldl (fun m x => if x < m then x else m) a ≤ x := by
  induction l generalizing a with
  | nil => simp
  | cons y ys ih =>
    intro x hx
    simp only [List.foldl_cons]
    rcases List.mem_cons.mp hx with rfl | hx2
    · by_cases h : x < a
      · simp only [if_pos h]
        exact foldl_jsmin_le_init ys x
      · simp only [if_neg h]
        exact le_trans (foldl_jsmin_le_init ys a) (Nat.not_lt.mp h)
    · by_cases h : y < a
      · simp only [if_pos h]
        exact ih y x hx2
      · simp only [if_neg h]
        exact ih a x hx2

theorem le_foldl_jsmin (l : List ℕ) (a c : ℕ) (ha : c ≤ a)
    (hl : ∀ x ∈ l, c ≤ x) :
    c ≤ l.foldl (fun m x => if x < m then x else m) a := by
  induction l generalizing a with
  | nil => simpa
  | cons y ys ih =>
    simp only [List.foldl_cons]
    by_cases h : y < a
    · simp only [if_pos h]
      exact ih y (hl y (by simp)) (fun x hx => hl x (by simp [hx]))
    · simp only [if_neg h]
      exact ih a ha (fun x hx => hl x (by simp [hx]))

/-- C1 supporting fact: on a duplicate-free in-flight list whose non-
committed members stay below `Number.MAX_SAFE_INTEGER`, the TypeScript
reductions compute exactly the spec's max/min/sorted-members snapshot. -/
theorem computeSnapshotParts_eq_spec (xid : ℕ) (l : List ℕ)
    (hnd : l.Nodup)
    (hbound : ∀ x ∈ l, x ≠ xid → x ≤ jsMaxSafeInteger) :
    computeSnapshotParts xid l = specSnapshotAfterCommit xid l.toFinset := by
  have hmem : ∀ x : ℕ, x ∈ l.filter (fun y => y ≠ xid) ↔ x ∈ l.toFinset.erase xid := by
    intro x
    simp [List.mem_filter, Finset.mem_erase, List.mem_toFinset, and_comm]
  have hnd2 : (l.filter (fun y => y ≠ xid)).Nodup := hnd.filter _
  have htof : (l.filter (fun y => y ≠ xid)).toFinset = l.toFinset.erase xid := by
    ext x
    rw [List.mem_toFinset]
    exact hmem x
  -- the two xmax computations agree
  have hxmax :
      ((xid :: l.filter (fun y => y ≠ xid)).foldl (fun m x => if m < x then x else m) 0)
        = (insert xid (l.toFinset.erase xid)).max'
            (Finset.insert_nonempty xid (l.toFinset.erase xid)) := by
    apply le_antisymm
    · apply foldl_jsmax_le _ _ _ (Nat.zero_le _)
      intro x hx
      rcases List.mem_cons.mp hx with rfl | hx2
      · exact Finset.le_max' _ x (Finset.mem_insert_self x _)
      · exact Finset.le_max' _ x (Finset.mem_insert_of_mem ((hmem x).mp hx2))
    · apply Finset.max'_le
      intro y hy
      rcases Finset.mem_insert.mp hy with rfl | hy2
      · exact foldl_jsmax_ge_mem _ 0 y (by simp)
      · exact foldl_jsmax_ge_mem _ 0 y (List.mem_cons_of_mem _ ((hmem y).mpr hy2))
  have hne_iff : 0 < (l.filter (fun y => y ≠ xid)).length ↔
      (l.toFinset.erase xid).Nonempty := by
    constructor
    · intro h
      match hl : l.filter (fun y => y ≠ xid) with
      | [] => rw [hl] at h; simp at h
      | y :: ys =>
        exact ⟨y, (hmem y).mp (by rw [hl]; simp)⟩
    · rintro ⟨y, hy⟩
      have : y ∈ l.filter (fun z => z ≠ xid) := (hmem y).mpr hy
      exact List.length_pos.mpr (List.ne_nil_of_mem this)
  simp only [computeSnapshotParts, specSnapshotAfterCommit]
  by_cases hne : (l.toFinset.erase xid).Nonempty
  · -- remaining non-empty: xmin is the true minimum thanks to the bound
    have hlen : 0 < (l.filter (fun y => y ≠ xid)).length := hne_iff.mpr hne
    have hxmin :
        ((l.filter (fun y => y ≠ xid)).foldl (fun m x => if x < m then x else m)
            jsMaxSafeInteger)
          = (l.toFinset.erase xid).min' hne := by
      apply le_antisymm
      · exact foldl_jsmin_le_mem _ _ _
          ((hmem _).mpr (Finset.min'_mem (l.toFinset.erase xid) hne))
      · apply le_foldl_jsmin
        · have hm := Finset.min'_mem (l.toFinset.erase xid) hne
          have hm2 := (hmem _).mpr hm
          rw [List.mem_filter] at hm2
          exact hbound _ hm2.1 (by simpa using hm2.2)
        · intro x hx
          exact Finset.min'_le _ x ((hmem x).mp hx)
    rw [if_pos hlen, dif_pos hne, hxmax, hxmin]
    -- remaining goal: the xip lists agree
    have hxip :
        List.insertionSort (· ≤ ·)
            ((l.filter (fun y => y ≠ xid)).filter
              (fun x => (l.toFinset.erase xid).min' hne ≤ x ∧
                x < (insert xid (l.toFinset.erase xid)).max'
                  (Finset.insert_nonempty xid (l.toFinset.erase xid)) + 1))
          = Finset.sort (· ≤ ·)
              ((l.toFinset.erase xid).filter
                (fun x => (l.toFinset.erase xid).min' hne ≤ x ∧
                  x < (insert xid (l.toFinset.erase xid)).max'
                    (Finset.insert_nonempty xid (l.toFinset.erase xid)) + 1)) := by
      refine @List.eq_of_perm_of_sorted ℕ (· ≤ ·) _ _ _ ?_
        (List.sorted_insertionSort _ _) (Finset.sort_sorted _ _)
      refine (List.perm_insertionSort (· ≤ ·) _).trans
        (List.perm_of_nodup_nodup_toFinset_eq (hnd2.filter _)
          (Finset.sort_nodup (· ≤ ·) _) ?_)
      rw [List.toFinset_filter, htof, Finset.sort_toFinset]
      ext x
      simp [Finset.mem_filter]
    simp only [HistSnap.mk.injEq, true_and]
    exact hxip
  · -- remaining empty: xmin falls back to xmax on both sides
    have hlen : ¬ 0 < (l.filter (fun y => y ≠ xid)).length := by
      intro h
      exact hne (hne_iff.mp h)
    have hempty : l.filter (fun y => y ≠ xid) = [] := by
      match hl : l.filter (fun y => y ≠ xid) with
      | [] => rfl
      | y :: ys => rw [hl] at hlen; simp at hlen
    rw [if_neg hlen, dif_neg hne, hxmax]
    have hserase : l.toFinset.erase xid = ∅ := by
      rcases Finset.eq_empty_or_nonempty (l.toFinset.erase xid) with h | h
      · exact h
      · exact absurd h hne
    rw [hempty, hserase]
    simp [Finset.filter_empty]

theorem isCSpace_asciiLower (c : Char) : isCSpace (asciiLower c) = isCSpace c := by
  by_cases h : 65 ≤ c.toNat ∧ c.toNat ≤ 90
  · have h32 : (Char.ofNat (c.toNat + 32)).toNat = c.toNat + 32 :=
      char_toNat_ofNat (by omega)
    simp only [asciiLower, if_pos h, isCSpace, h32]
    have e1 : decide (c.toNat + 32 = 32) = false := by
      simp only [decide_eq_false_iff_not]
      omega
    have e2 : decide (c.toNat + 32 ≤ 13) = false := by
      simp only [decide_eq_false_iff_not]
      omega
    have e3 : decide (c.toNat = 32) = false := by
      simp only [decide_eq_false_iff_not]
      omega
    have e4 : decide (c.toNat ≤ 13) = false := by
      simp only [decide_eq_false_iff_not]
      omega
    rw [e1, e2, e3, e4]
    simp
  · simp [asciiLower, h]

theorem startsWithKeyword_iff (kw p : List Char) :
    startsWithKeyword kw p = true ↔
      ∃ rest, p.map asciiLower = kw ++ rest ∧
        (rest = [] ∨ ∃ c rest2, rest = c :: rest2 ∧ isCSpace c = true) := by
  simp only [startsWithKeyword, Bool.and_eq_true, beq_iff_eq]
  constructor
  · rintro ⟨htake, hnext⟩
    refine ⟨(p.drop kw.length).map asciiLower, ?_, ?_⟩
    · rw [show p = p.take kw.length ++ p.drop kw.length from (List.take_append_drop _ p).symm]
      rw [List.map_append, List.take_append_drop]
      rw [htake]
    · match hd : p.drop kw.length with
      | [] => exact Or.inl rfl
      | c :: rest2 =>
        rw [hd] at hnext
        refine Or.inr ⟨asciiLower c, rest2.map asciiLower, by simp, ?_⟩
        rw [isCSpace_asciiLower]
        exact hnext
  · rintro ⟨rest, hmap, hlook⟩
    have hlen : kw.length ≤ p.length := by
      have := congrArg List.length hmap
      simp only [List.length_map, List.length_append] at this
      omega
    have htake : (p.take kw.length).map asciiLower = kw := by
      rw [List.map_take, hmap, List.take_append_of_le_length (le_refl _)]
      simp
    have hdropm : (p.drop kw.length).map asciiLower = rest := by
      rw [List.map_drop, hmap]
      have : (kw ++ rest).drop kw.length = rest := List.drop_left kw rest
      exact this
    refine ⟨htake, ?_⟩
    rcases hlook with rfl | ⟨c, rest2, hrest, hsp⟩
    · have : p.drop kw.length = [] := by
        have := congrArg List.length hdropm
        simp only [List.length_map, List.length_nil] at this
        match hd : p.drop kw.length with
        | [] => rfl
        | x :: xs => rw [hd] at this; simp at this
      rw [this]
    · match hd : p.drop kw.length with
      | [] => rfl
      | x :: xs =>
        rw [hd] at hdropm
        rw [hrest] at hdropm
        simp only [List.map_cons, List.cons.injEq] at hdropm
        have hx : asciiLower x = c := hdropm.1
        rw [← hx] at hsp
        rw [isCSpace_asciiLower] at hsp
        exact hsp

/-- C6 supporting fact: the classifier accepts exactly the spec's
read-query texts. -/
theorem is_select_query_iff_spec (sql : List Char) :
    is_select_query sql = true ↔ specReadOnlyAccept sql := by
  simp only [is_select_query, specReadOnlyAccept, Bool.or_eq_true,
    startsWithKeyword_iff]
  constructor
  · rintro (⟨rest, hmap, hlook⟩ | ⟨rest, hmap, hlook⟩)
    · exact ⟨['s','e','l','e','c','t'], rest, Or.inl rfl, hmap, hlook⟩
    · exact ⟨['w','i','t','h'], rest, Or.inr rfl, hmap, hlook⟩
  · rintro ⟨kw, rest, hkw | hkw, hmap, hlook⟩
    · subst hkw
      exact Or.inl ⟨rest, hmap, hlook⟩
    · subst hkw
      exact Or.inr ⟨rest, hmap, hlook⟩

/-- C1 (amended): for a commit event with xid `x`, provided every other
in-flight xid is at most `Number.MAX_SAFE_INTEGER` (the initial
accumulator of the xmin reduction; always true for real 32-bit
transaction ids), the tailer removes `x` from the in-flight set, clears
the current xid, and emits exactly the snapshot of spec §4.1: `xmax =
max({x} ∪ remaining) + 1`, `xmin = min(remaining)` when `remaining` is
non-empty and `xmax` otherwise, and `xip` the ascending-sorted members of
`remaining` within `[xmin, xmax)`, encoded as `"xmin:xmax:xip,..."`.
Without the bound the code's xmin clamps at `MAX_SAFE_INTEGER`
(see the counterexample). -/
theorem C1_commit_emits_spec_snapshot (st : TailerState) (x : ℕ)
    (hnd : st.inFlightXids.Nodup)
    (hbound : ∀ y ∈ st.inFlightXids, y ≠ x → y ≤ jsMaxSafeInteger) :
    handleMessage st (RepEvent.commitEv (some x)) =
      { inFlightXids := st.inFlightXids.filter (fun y => y ≠ x)
        currentXid := none
        commitSnapshots := st.commitSnapshots ++
          [(x, encodeSnap (specSnapshotAfterCommit x st.inFlightXids.toFinset))] } := by
  simp only [handleMessage, computeSnapshotAfterCommit,
    computeSnapshotParts_eq_spec x st.inFlightXids hnd hbound]

/-- C1 witness: the spec's own example — in-flight `{100, 101}`,
`Commit(100)` emits `"101:102:101"`, then `Commit(101)` emits
`"102:102:"`. -/
theorem C1_commit_emits_spec_snapshot_witness :
    handleMessage ⟨[100, 101], none, []⟩ (RepEvent.commitEv (some 100)) =
      { inFlightXids := [101]
        currentXid := none
        commitSnapshots :=
          [(100, encodeSnap (specSnapshotAfterCommit 100 (([100, 101] : List ℕ).toFinset)))] } ∧
    computeSnapshotAfterCommit 100 [100, 101] = "101:102:101".toList ∧
    computeSnapshotAfterCommit 101 [101] = "102:102:".toList :=
  ⟨C1_commit_emits_spec_snapshot ⟨[100, 101], none, []⟩ 100 (by decide) (by decide),
   by decide, by decide⟩

/-- C1 counterexample: with in-flight `{2^53, 2^53 + 1}` and
`Commit(2^53)`, the remaining set is `{2^53 + 1}`, whose minimum is
`2^53 + 1 = 9007199254740993`; but the code's xmin reduction starts from
`Number.MAX_SAFE_INTEGER = 2^53 - 1`, so the emitted xmin is
`9007199254740991`, which is not even a member of the remaining set —
contradicting `xmin = min(remaining)`. -/
theorem C1_counterexample :
    (computeSnapshotParts 9007199254740992 [9007199254740992, 9007199254740993]).xmin
        = 9007199254740991 ∧
    [9007199254740992, 9007199254740993].filter (fun x => x ≠ 9007199254740992)
        = [9007199254740993] ∧
    (9007199254740991 : ℕ) ≠ 9007199254740993 := by
  decide

/-- C2 (amended): the failure conditions hold on the transaction-scoped
install path — `electric_parse_snapshot_text` fails exactly when the xmin
or xmax token is missing or non-numeric, a fourth non-empty `':'` field is
present, `xmin > xmax`, or an xip entry is non-numeric, out of
`[xmin, xmax)`, or duplicated (tokens are the non-empty `strtok_r` fields,
numerals are read by `strtoul`).  The query-gateway decode inside
`create_custom_snapshot` instead fails only when the xmin or xmax token is
missing, performing none of the other checks. -/
theorem C2_decode_failure_conditions (cs : List Char) :
    (electric_parse_snapshot_text cs = none ↔ txnDecodeRejects cs) ∧
    (create_custom_snapshot_parse cs = none ↔ (strtokFields ':' cs).length < 2) :=
  ⟨electric_parse_none_iff cs, create_custom_parse_none_iff cs⟩

/-- C2 counterexample: the claim requires `decode("5:3:")` to fail with
`MalformedSnapshot` (`xmin > xmax`) in every place the snapshot text is
decoded, but the Query Gateway path accepts it: `create_custom_snapshot`
returns a snapshot with `xmin = 5 > xmax = 3`.  (`"5:10:12"` and
`"5:10:6,6"` are likewise accepted there.) -/
theorem C2_counterexample :
    create_custom_snapshot_parse ("5:3:".toList) = some ⟨5, 3, []⟩ ∧
    create_custom_snapshot_parse ("5:10:12".toList) = some ⟨5, 10, [12]⟩ ∧
    create_custom_snapshot_parse ("5:10:6,6".toList) = some ⟨5, 10, [6, 6]⟩ := by
  decide

/-- C3: decoding the canonical encoding of a valid snapshot value returns
it unchanged (with the decoded xip sorted, here equal to the already
sorted input).  Validity is the spec's invariant — `xmin ≤ xmax`, every
xip member in `[xmin, xmax)`, xip strictly ascending — over the decoder's
`TransactionId` type, which is `uint32` in the source, whence the
`xmax < 2^32` bound. -/
theorem C3_round_trip (s : HistSnap)
    (hbound : s.xmax < TXID_MOD)
    (hminmax : s.xmin ≤ s.xmax)
    (hrange : ∀ x ∈ s.xip, s.xmin ≤ x ∧ x < s.xmax)
    (hsorted : List.Sorted (· < ·) s.xip) :
    electric_parse_snapshot_text (encodeSnap s) = some s :=
  decode_encode s hbound hminmax hrange hsorted

/-- C3 witness: round trip at the concrete snapshot `3:10:4,7`. -/
theorem C3_round_trip_witness :
    (3 : ℕ) < TXID_MOD ∧
    electric_parse_snapshot_text (encodeSnap ⟨3, 10, [4, 7]⟩) = some ⟨3, 10, [4, 7]⟩ ∧
    encodeSnap ⟨3, 10, [4, 7]⟩ = "3:10:4,7".toList :=
  ⟨by decide,
   C3_round_trip ⟨3, 10, [4, 7]⟩ (by decide) (by decide) (by decide)
     (by decide),
   by decide⟩

/-- C4 (amended): the replication handler has no abort branch — an abort
event leaves the tailer state entirely unchanged: it emits no snapshot,
but it also does not remove the xid from the in-flight set. -/
theorem C4_abort_leaves_state_unchanged (st : TailerState) (x : ℕ) :
    handleMessage st (RepEvent.abortEv x) = st := rfl

/-- C4 counterexample: an abort does not remove the xid, and an aborted
transaction's id can then appear in the xip of a later commit's snapshot:
after `Begin(5), Begin(6), Abort(5), Commit(6)` the emitted snapshot is
`"5:7:5"` — the aborted xid 5 is in its xip. -/
theorem C4_counterexample :
    (handleMessage ⟨[5], none, []⟩ (RepEvent.abortEv 5)).inFlightXids = [5] ∧
    (runTailer ⟨[], none, []⟩
        [RepEvent.beginEv 5, RepEvent.beginEv 6, RepEvent.abortEv 5,
          RepEvent.commitEv (some 6)]).commitSnapshots
      = [(6, "5:7:5".toList)] ∧
    electric_parse_snapshot_text "5:7:5".toList = some ⟨5, 7, [5]⟩ := by
  decide

/-- C5: setting `electric.snapshot` to a non-empty string succeeds only
inside an explicit transaction block, at an isolation level using a
transaction snapshot (exactly REPEATABLE READ or SERIALIZABLE), at
subtransaction depth zero, before the first snapshot is fixed; the four
violations fail with, respectively, `NotInTransaction`,
`WrongIsolationLevel`, `InSubtransaction`, `SnapshotAlreadyFixed`; and a
failed install returns the session state unchanged (the check hook
mutates nothing before raising). -/
theorem C5_install_guardrails (st : SessionState) (base : SnapshotData)
    (newval : List Char) (hne : newval ≠ []) :
    (∀ lvl, isolationUsesXactSnapshot lvl = true ↔
      (lvl = IsoLevel.repeatableRead ∨ lvl = IsoLevel.serializable)) ∧
    (st.txn.inTxnBlock = false →
      requestInstall st base newval = (some GuardErr.NotInTransaction, st)) ∧
    (st.txn.inTxnBlock = true → isolationUsesXactSnapshot st.txn.isoLevel = false →
      requestInstall st base newval = (some GuardErr.WrongIsolationLevel, st)) ∧
    (st.txn.inTxnBlock = true → isolationUsesXactSnapshot st.txn.isoLevel = true →
      0 < st.txn.subDepth →
      requestInstall st base newval = (some GuardErr.InSubtransaction, st)) ∧
    (st.txn.inTxnBlock = true → isolationUsesXactSnapshot st.txn.isoLevel = true →
      st.txn.subDepth = 0 → st.txn.firstSnapshotFixed = true →
      requestInstall st base newval = (some GuardErr.SnapshotAlreadyFixed, st)) ∧
    (∀ e stfin, requestInstall st base newval = (some e, stfin) → stfin = st) ∧
    ((requestInstall st base newval).1 = none →
      st.txn.inTxnBlock = true ∧ isolationUsesXactSnapshot st.txn.isoLevel = true ∧
        st.txn.subDepth = 0 ∧ st.txn.firstSnapshotFixed = false) := by
  have hnee : newval.isEmpty = false := by
    cases newval with
    | nil => exact absurd rfl hne
    | cons c cs => rfl
  refine ⟨?_, ?_, ?_, ?_, ?_, ?_, ?_⟩
  · intro lvl
    cases lvl <;> simp [isolationUsesXactSnapshot]
  · intro h
    simp [requestInstall, electric_snapshot_check_hook, hnee, h]
  · intro h1 h2
    simp [requestInstall, electric_snapshot_check_hook, hnee, h1, h2]
  · intro h1 h2 h3
    simp [requestInstall, electric_snapshot_check_hook, hnee, h1, h2, h3]
  · intro h1 h2 h3 h4
    simp [requestInstall, electric_snapshot_check_hook, hnee, h1, h2, h3, h4]
  · intro e stfin h
    simp only [requestInstall] at h
    match hc : electric_snapshot_check_hook st.txn newval with
    | Except.error e2 =>
      rw [hc] at h
      simp only [Prod.mk.injEq] at h
      exact h.2.symm
    | Except.ok none =>
      rw [hc] at h
      simp at h
    | Except.ok (some p) =>
      rw [hc] at h
      simp at h
  · intro h
    simp only [requestInstall] at h
    revert h
    simp only [electric_snapshot_check_hook, hnee, Bool.false_eq_true, if_false]
    by_cases h1 : st.txn.inTxnBlock
    · by_cases h2 : isolationUsesXactSnapshot st.txn.isoLevel
      · by_cases h3 : 0 < st.txn.subDepth
        · simp [h1, h2, h3]
        · by_cases h4 : st.txn.firstSnapshotFixed
          · simp [h1, h2, h3, h4]
          · intro _
            refine ⟨h1, h2, by omega, by
              revert h4
              match st.txn.firstSnapshotFixed with
              | true => intro h4; exact absurd rfl h4
              | false => intro _; rfl⟩
      · simp [h1, h2]
    · simp [h1]

/-- C5 witness: each guardrail violation at a concrete state, with the
matching error and the state returned unchanged. -/
theorem C5_install_guardrails_witness :
    requestInstall ⟨⟨false, IsoLevel.repeatableRead, 0, false⟩, none⟩ sampleBase
        ("90:120:".toList)
      = (some GuardErr.NotInTransaction,
         ⟨⟨false, IsoLevel.repeatableRead, 0, false⟩, none⟩) ∧
    requestInstall ⟨⟨true, IsoLevel.readCommitted, 0, false⟩, none⟩ sampleBase
        ("90:120:".toList)
      = (some GuardErr.WrongIsolationLevel,
         ⟨⟨true, IsoLevel.readCommitted, 0, false⟩, none⟩) ∧
    requestInstall ⟨⟨true, IsoLevel.repeatableRead, 1, false⟩, none⟩ sampleBase
        ("90:120:".toList)
      = (some GuardErr.InSubtransaction,
         ⟨⟨true, IsoLevel.repeatableRead, 1, false⟩, none⟩) ∧
    requestInstall ⟨⟨true, IsoLevel.serializable, 0, true⟩, none⟩ sampleBase
        ("90:120:".toList)
      = (some GuardErr.SnapshotAlreadyFixed,
         ⟨⟨true, IsoLevel.serializable, 0, true⟩, none⟩) :=
  ⟨(C5_install_guardrails _ sampleBase _ (by decide)).2.1 rfl,
   (C5_install_guardrails _ sampleBase _ (by decide)).2.2.1 rfl rfl,
   (C5_install_guardrails _ sampleBase _ (by decide)).2.2.2.1 rfl rfl (by decide),
   (C5_install_guardrails _ sampleBase _ (by decide)).2.2.2.2.1 rfl rfl rfl rfl⟩

/-- C6: the Query Gateway accepts a query as read-only iff, after skipping
leading whitespace, it case-insensitively starts with `select` or `with`
followed by whitespace or end of text; every other query is rejected with
`NotReadOnly` (`"only SELECT queries are allowed"`) before the storage
engine is ever invoked. -/
theorem C6_read_only_classification (sql : List Char) (base : SnapshotData)
    (stack : List SnapshotData) (engine : List Char → List BoundValue → EngineReply)
    (snapshotText : List Char) (args : Option JVal) :
    (is_select_query sql = true ↔ specReadOnlyAccept sql) ∧
    (is_select_query sql = false →
      (electric_exec_as_of_model base stack engine snapshotText sql args).result
          = Except.error GatewayErr.NotReadOnly ∧
      (electric_exec_as_of_model base stack engine snapshotText sql args).engineCalled
          = false) := by
  refine ⟨is_select_query_iff_spec sql, ?_⟩
  intro h
  constructor <;> simp [electric_exec_as_of_model, h]

/-- C6 witness: `delete from t` (and a malformed-snapshot argument) is
rejected with `NotReadOnly` and the engine is not called; `"  SeLeCt 1"`
and `"WITH x AS (SELECT 1) SELECT 2"` are accepted, `"selectx"` and
`"insert into t values (1)"` are not. -/
theorem C6_read_only_classification_witness :
    (electric_exec_as_of_model sampleBase [] (fun _ _ => EngineReply.execFail)
        ("90:120:".toList) ("delete from t".toList) none).result
      = Except.error GatewayErr.NotReadOnly ∧
    (electric_exec_as_of_model sampleBase [] (fun _ _ => EngineReply.execFail)
        ("90:120:".toList) ("delete from t".toList) none).engineCalled = false ∧
    is_select_query ("  SeLeCt 1".toList) = true ∧
    is_select_query ("WITH x AS (SELECT 1) SELECT 2".toList) = true ∧
    is_select_query ("selectx".toList) = false ∧
    is_select_query ("insert into t values (1)".toList) = false := by
  have h := (C6_read_only_classification ("delete from t".toList) sampleBase []
    (fun _ _ => EngineReply.execFail) ("90:120:".toList) none).2 (by decide)
  exact ⟨h.1, h.2, by decide, by decide, by decide, by decide⟩

/-- C7 (amended): in `electric_exec_as_of` the read-only classification
runs before the snapshot text is decoded: a call with a non-read query
fails `NotReadOnly` even when the snapshot text is malformed, and the
snapshot is decoded (failing with `MalformedSnapshot`) only once the query
has been accepted and the arguments parsed. -/
theorem C7_classification_before_decode (base : SnapshotData)
    (stack : List SnapshotData) (engine : List Char → List BoundValue → EngineReply)
    (snapshotText sqlText : List Char) (args : Option JVal) :
    (is_select_query sqlText = false →
      (electric_exec_as_of_model base stack engine snapshotText sqlText args).result
        = Except.error GatewayErr.NotReadOnly) ∧
    (is_select_query sqlText = true →
      ∀ argStrs, parse_jsonb_args args = Except.ok argStrs →
        create_custom_snapshot_parse snapshotText = none →
        (electric_exec_as_of_model base stack engine snapshotText sqlText args).result
          = Except.error GatewayErr.MalformedSnapshot) := by
  constructor
  · intro h
    simp [electric_exec_as_of_model, h]
  · intro h argStrs hargs hparse
    simp [electric_exec_as_of_model, h, hargs, hparse]

/-- C7 witness: with the malformed snapshot text `"123"` and the non-read
query `delete from t`, the call fails `NotReadOnly`; the same snapshot
text under an accepted query fails `MalformedSnapshot`. -/
theorem C7_classification_before_decode_witness :
    (electric_exec_as_of_model sampleBase [] (fun _ _ => EngineReply.execFail)
        ("123".toList) ("delete from t".toList) none).result
      = Except.error GatewayErr.NotReadOnly ∧
    (electric_exec_as_of_model sampleBase [] (fun _ _ => EngineReply.execFail)
        ("123".toList) ("select 1".toList) none).result
      = Except.error GatewayErr.MalformedSnapshot :=
  ⟨(C7_classification_before_decode sampleBase [] (fun _ _ => EngineReply.execFail)
      ("123".toList) ("delete from t".toList) none).1 (by decide),
   (C7_classification_before_decode sampleBase [] (fun _ _ => EngineReply.execFail)
      ("123".toList) ("select 1".toList) none).2 (by decide) [] (by decide) (by decide)⟩

/-- C7 counterexample: the claim requires decode-before-classification, so
a call with malformed snapshot text and a non-read query should fail
`MalformedSnapshot`; the code classifies first and fails `NotReadOnly`
instead. -/
theorem C7_counterexample :
    (electric_exec_as_of_model sampleBase [] (fun _ _ => EngineReply.execFail)
        ("123".toList) ("delete from t".toList) none).result
      = Except.error GatewayErr.NotReadOnly ∧
    (Except.error GatewayErr.NotReadOnly : Except GatewayErr (List Char))
      ≠ Except.error GatewayErr.MalformedSnapshot ∧
    create_custom_snapshot_parse ("123".toList) = none := by
  decide

/-- C8: the active-snapshot stack after an `electric_exec_as_of` call
equals the stack before it on every exit path — the overlay pushed for the
call is popped in the `PG_FINALLY` block on success, execution error and
result-shape error alike (and error paths before the push never install
it) — so a subsequent call starting from the resulting stack behaves
exactly as one starting from the original stack. -/
theorem C8_overlay_always_uninstalled (base : SnapshotData)
    (stack : List SnapshotData) (engine : List Char → List BoundValue → EngineReply)
    (snapshotText sqlText : List Char) (args : Option JVal)
    (base2 : SnapshotData) (engine2 : List Char → List BoundValue → EngineReply)
    (snapshotText2 sqlText2 : List Char) (args2 : Option JVal) :
    (electric_exec_as_of_model base stack engine snapshotText sqlText args).snapStackAfter
        = stack ∧
    electric_exec_as_of_model base2
        (electric_exec_as_of_model base stack engine snapshotText sqlText args).snapStackAfter
        engine2 snapshotText2 sqlText2 args2
      = electric_exec_as_of_model base2 stack engine2 snapshotText2 sqlText2 args2 := by
  have hstack :
      (electric_exec_as_of_model base stack engine snapshotText sqlText args).snapStackAfter
        = stack := by
    rw [electric_exec_as_of_model]
    by_cases h : is_select_query sqlText
    · simp only [h]
      match parse_jsonb_args args with
      | Except.error e => rfl
      | Except.ok argStrs =>
        simp only
        match create_custom_snapshot_parse snapshotText with
        | none => rfl
        | some parsed =>
          simp only
          match engine (wrapSql sqlText)
              ((argStrs.map bindArg)) with
          | EngineReply.execFail => rfl
          | EngineReply.done retOk rows =>
            simp only
            by_cases hok : retOk
            · simp only [hok]
              by_cases hlen : rows.length ≠ 1
              · simp [hlen]
              · simp only [hlen]
                match rows.headD none with
                | none => simp
                | some payload => simp
            · simp [hok]
    · simp [h]
  exact ⟨hstack, by rw [hstack]⟩

/-- C9 (amended): both builders overwrite `xmin`, `xmax` and the xip list
(hence its count) with the decoded snapshot's values, force the
subtransaction id list empty (`subxip = []`, `subxcnt = 0`,
`suboverflowed = false`), mark the result copied with the reference-count
bookkeeping zeroed, and copy every other field verbatim from `base` —
except that `electric_build_snapshot_from_parts` additionally forces
`snapshot_type` to `SNAPSHOT_MVCC`, while `create_custom_snapshot` leaves
`snapshot_type` as copied from `base`. -/
theorem C9_build_overrides_only_visibility (base : SnapshotData) (p : HistSnap) :
    (electric_build_snapshot_from_parts base p).xmin = p.xmin ∧
    (electric_build_snapshot_from_parts base p).xmax = p.xmax ∧
    (electric_build_snapshot_from_parts base p).xip = p.xip ∧
    (electric_build_snapshot_from_parts base p).xip.length = p.xip.length ∧
    (electric_build_snapshot_from_parts base p).subxip = [] ∧
    (electric_build_snapshot_from_parts base p).suboverflowed = false ∧
    (electric_build_snapshot_from_parts base p).copied = true ∧
    (electric_build_snapshot_from_parts base p).active_count = 0 ∧
    (electric_build_snapshot_from_parts base p).regd_count = 0 ∧
    (electric_build_snapshot_from_parts base p).snapshot_type = SnapshotType.mvcc ∧
    (electric_build_snapshot_from_parts base p).takenDuringRecovery
        = base.takenDuringRecovery ∧
    (electric_build_snapshot_from_parts base p).curcid = base.curcid ∧
    (electric_build_snapshot_from_parts base p).speculativeToken
        = base.speculativeToken ∧
    (electric_build_snapshot_from_parts base p).whenTaken = base.whenTaken ∧
    (electric_build_snapshot_from_parts base p).lsn = base.lsn ∧
    create_custom_snapshot_build base p
      = { electric_build_snapshot_from_parts base p with
          snapshot_type := base.snapshot_type } :=
  ⟨rfl, rfl, rfl, rfl, rfl, rfl, rfl, rfl, rfl, rfl, rfl, rfl, rfl, rfl, rfl, rfl⟩

/-- C9 counterexample: `snapshot_type` is another field of `base`, and it
is not copied verbatim by `electric_build_snapshot_from_parts`: with a
base of type `SNAPSHOT_ANY` the built snapshot's type is `SNAPSHOT_MVCC`,
contradicting "every other field of base is unchanged". -/
theorem C9_counterexample :
    (electric_build_snapshot_from_parts sampleBaseAny ⟨5, 9, [6]⟩).snapshot_type
        = SnapshotType.mvcc ∧
    sampleBaseAny.snapshot_type = SnapshotType.anySnap ∧
    SnapshotType.mvcc ≠ SnapshotType.anySnap := by
  decide

/-- C10: in the argument conversion of `electric_exec_as_of`, a JSON null
element becomes a NULL C string and is bound as SQL NULL (not as the text
`"null"`); string, number and boolean elements are bound as text values;
a scalar root (or SQL NULL `args`) yields zero bound arguments; and an
object root fails with the invalid-parameter error. -/
theorem C10_argument_binding :
    (jsonbArgElem JVal.jnull = Except.ok none ∧
      bindArg none = BoundValue.sqlNull ∧
      BoundValue.sqlNull ≠ BoundValue.textVal ("null".toList)) ∧
    (∀ s, jsonbArgElem (JVal.jstr s) = Except.ok (some s) ∧
      bindArg (some s) = BoundValue.textVal s) ∧
    (∀ r, jsonbArgElem (JVal.jnum r) = Except.ok (some r)) ∧
    (jsonbArgElem (JVal.jbool true) = Except.ok (some ("true".toList)) ∧
      jsonbArgElem (JVal.jbool false) = Except.ok (some ("false".toList))) ∧
    (parse_jsonb_args none = Except.ok [] ∧
      parse_jsonb_args (some JVal.jnull) = Except.ok [] ∧
      (∀ s, parse_jsonb_args (some (JVal.jstr s)) = Except.ok []) ∧
      (∀ r, parse_jsonb_args (some (JVal.jnum r)) = Except.ok []) ∧
      (∀ b, parse_jsonb_args (some (JVal.jbool b)) = Except.ok [])) ∧
    (∀ pairs, parse_jsonb_args (some (JVal.jobj pairs))
        = Except.error GatewayErr.InvalidParameterValue) ∧
    (∀ elems, parse_jsonb_args (some (JVal.jarr elems)) = jsonbArgList elems) :=
  ⟨⟨rfl, rfl, by decide⟩,
   fun s => ⟨rfl, rfl⟩,
   fun r => rfl,
   ⟨by decide, by decide⟩,
   ⟨rfl, rfl, fun s => rfl, fun r => rfl, fun b => rfl⟩,
   fun pairs => rfl,
   fun elems => rfl⟩
